import Mathlib

/-!
Shallow embedding of the reactive synchronization core of the
ghostty-discord-bot repository, together with proofs settling the frozen
claims about it.

The embedding covers:
* `MessageLinker` (src/app/utils/hooks.py): the original → replies registry,
  backed in the source by a `defaultdict(list)`.  We model the dict as an
  association list in insertion order; `get` reproduces the `defaultdict`
  side effect of inserting an empty list on a missing key, and `unlink`
  reproduces `del`, which raises `KeyError` on a missing key.
* the edit hook and delete hook produced by `create_edit_hook` /
  `create_delete_hook` (same file).  The hooks' platform side effects
  (reply deletion, reply editing, view timers) are reified as an `Action`
  list; the feature-supplied `message_processor` is a function parameter.
* the entity-signature resolver `resolve_repo_signatures`
  (src/app/components/entity_mentions/resolution.py).  The Python `re`
  library is external to the repository, so the resolver is embedded at the
  match level: its input is the list of regex matches in left-to-right text
  order, each carrying the `site` / `owner` / `repo` / `sep` / `number`
  captures, and the per-match logic (separator consistency check, the
  five-way owner/repo dispatch, the `suppress` of owner-resolution
  failures, the valid-signature cap of 10, and the `message.edit` performed
  on site-prefixed matches) is translated from the source.
* a model of the TTR cache's single-flight fetch behavior, written from the
  spec because the `TTRCache` class itself is not among the provided
  sources (only its subclass `OwnerCache` is).
-/

deriving instance DecidableEq for Except

namespace GhosttyBot

/-- A Discord message, reduced to the fields the hooks read: identity,
content, whether the author is a bot, and creation/edit timestamps
(seconds, `editedAt = none` when the message was never edited). -/
structure Msg where
  id : Nat
  content : String
  authorBot : Bool
  createdAt : Int
  editedAt : Option Int
deriving DecidableEq, Repr

/-- The registry's backing store: `self._refs`, a `defaultdict` from
original message to list of replies, modelled as an association list in
insertion order. -/
abbrev LinkMap := List (Msg × List Msg)

/-- `MessageLinker` from src/app/utils/hooks.py. -/
structure MessageLinker where
  refs : LinkMap
deriving DecidableEq, Repr

/-- Plain dictionary lookup (no `defaultdict` side effect). -/
def lookupRef : LinkMap → Msg → Option (List Msg)
  | [], _ => none
  | (k, v) :: rest, m => if k = m then some v else lookupRef rest m

/-- Dictionary update of an existing key (first occurrence). -/
def setRef : LinkMap → Msg → List Msg → LinkMap
  | [], _, _ => []
  | (k, v) :: rest, m, new =>
    if k = m then (k, new) :: rest else (k, v) :: setRef rest m new

/-- Dictionary deletion: `none` models the `KeyError` raised by `del` on a
missing key. -/
def delRef : LinkMap → Msg → Option LinkMap
  | [], _ => none
  | (k, v) :: rest, m =>
    if k = m then some rest else (delRef rest m).map ((k, v) :: ·)

/-- `MessageLinker.get`: `return self._refs[original]`.  Because `_refs` is
a `defaultdict(list)`, subscripting a missing key inserts an empty list; the
returned pair is (result, updated registry). -/
def MessageLinker.get (l : MessageLinker) (original : Msg) :
    List Msg × MessageLinker :=
  match lookupRef l.refs original with
  | some v => (v, l)
  | none => ([], ⟨l.refs ++ [(original, [])]⟩)

/-- `MessageLinker.link`: `self._refs[original].extend(replies)` (the
subscript inserts an empty list first when the key is missing). -/
def MessageLinker.link (l : MessageLinker) (original : Msg)
    (replies : List Msg) : MessageLinker :=
  match lookupRef l.refs original with
  | some v => ⟨setRef l.refs original (v ++ replies)⟩
  | none => ⟨l.refs ++ [(original, replies)]⟩

/-- `MessageLinker.unlink`: `del self._refs[original]`, which raises
`KeyError` (modelled as `.error ()`) when the key is absent. -/
def MessageLinker.unlink (l : MessageLinker) (original : Msg) :
    Except Unit MessageLinker :=
  match delRef l.refs original with
  | some r => .ok ⟨r⟩
  | none => .error ()

/-- `MessageLinker.get_original_message`: first original whose reply list
contains `reply`. -/
def MessageLinker.getOriginalMessage (l : MessageLinker) (reply : Msg) :
    Option Msg :=
  (l.refs.find? fun kv => kv.2.any fun r => r = reply).map (·.1)

/-- `MessageLinker.unlink_from_reply`: reverse-lookup the original and
unlink it; no-op when the reply is not tracked.  (When an original is
found it is a key of the dict, so the inner `unlink` cannot raise; the
`.error` fallback is unreachable.) -/
def MessageLinker.unlinkFromReply (l : MessageLinker) (reply : Msg) :
    MessageLinker :=
  match l.getOriginalMessage reply with
  | some original =>
    match l.unlink original with
    | .ok l2 => l2
    | .error _ => l
  | none => l

/-- The 24-hour consistency window of `unlink_if_expired`, in seconds. -/
def consistencyWindow : Int := 86400

/-- `MessageLinker.unlink_if_expired`: compares `now` with
`reply.edited_at or reply.created_at` and unlinks via the reverse lookup
when the difference exceeds 24 hours.  Returns (expired?, registry). -/
def MessageLinker.unlinkIfExpired (l : MessageLinker) (reply : Msg)
    (now : Int) : Bool × MessageLinker :=
  let lastUpdated := reply.editedAt.getD reply.createdAt
  if now - lastUpdated > consistencyWindow then (true, l.unlinkFromReply reply)
  else (false, l)

/-- The platform side effects performed by the hooks, reified. -/
inductive Action where
  /-- `interactor(after)`: send and link a brand-new reply. -/
  | interact (m : Msg)
  /-- `reply.delete()`. -/
  | deleteReply (m : Msg)
  /-- `reply.edit(content=..., view=view_type(after, count), ...)`. -/
  | editReply (m : Msg) (content : String) (count : Int)
  /-- `remove_view_after_timeout(reply, view_timeout)`. -/
  | removeViewTimer (m : Msg)
deriving DecidableEq, Repr

/-- The `edit_hook` closure produced by `create_edit_hook`.  `proc` is the
feature-supplied `message_processor`, returning (rendered content, item
count); the item count is an `Int` because Python's `int` is signed and
some processors use negative sentinel values.  Returns the updated
registry and the platform actions performed, in order.

Faithful control flow from the source: the `if not count` guard of the
delete branch tests Python falsiness of the `int`, i.e. `count = 0`
exactly; it runs *before* the `unlink_if_expired` check.  In the delete
branch `linker.unlink(before)` cannot raise because `linker.get(before)`
has just materialised the key; the `.error` fallback is unreachable. -/
def editHook (proc : Msg → String × Int) (linker : MessageLinker)
    (before after : Msg) (now : Int) : MessageLinker × List Action :=
  if before.content = after.content then (linker, [])
  else
    let oldObjects := proc before
    let newObjects := proc after
    if oldObjects = newObjects then (linker, [])
    else
      match linker.get before with
      | ([], linker1) =>
        if oldObjects.2 = 0 then (linker1, [.interact after]) else (linker1, [])
      | (reply :: _, linker1) =>
        let count := newObjects.2
        if count = 0 then
          match linker1.unlink before with
          | .ok linker2 => (linker2, [.deleteReply reply])
          | .error _ => (linker1, [])
        else
          match linker1.unlinkIfExpired reply now with
          | (true, linker2) => (linker2, [])
          | (false, linker2) =>
            (linker2, [.editReply reply newObjects.1 count,
                       .removeViewTimer reply])

/-- The reply-deletion loop of `delete_hook`: `for reply in replies: await
reply.delete()`.  `fails` says which platform deletes raise; the result is
(replies for which a delete was attempted, in order; `true` iff the loop
ran to completion without an exception).  There is no `suppress` around the
loop in the source, so a failure stops the iteration. -/
def attemptDeletes (fails : Msg → Bool) : List Msg → List Msg × Bool
  | [] => ([], true)
  | r :: rs =>
    if fails r then ([r], false)
    else
      let (att, ok) := attemptDeletes fails rs
      (r :: att, ok)

/-- The `delete_hook` closure produced by `create_delete_hook`: a deleted
bot message is treated as a reply (reverse unlink); otherwise the linked
replies are each deleted in turn.  Returns the updated registry, the
deletes attempted, and whether the hook finished without an exception. -/
def deleteHook (linker : MessageLinker) (message : Msg)
    (fails : Msg → Bool) : MessageLinker × List Msg × Bool :=
  if message.authorBot then (linker.unlinkFromReply message, [], true)
  else
    match linker.get message with
    | ([], linker1) => (linker1, [], true)
    | (replies, linker1) => (linker1, attemptDeletes fails replies)

/-- One match of `ENTITY_REGEX` against the message text, as the named
captures the resolver reads: `site` (the optional `https?://github.com/`
prefix), `owner` (optional, captured *with* its trailing `/`), `repo`
(optional), `sep` (`/issues/`, `/pull/`, `/discussions/` or `#`), and the
already-parsed 1-6 digit `number`. -/
structure RawMatch where
  site : Option String
  owner : Option String
  repo : Option String
  sep : String
  number : Nat
deriving DecidableEq, Repr

/-- The configuration the resolver reads: `config.GITHUB_ORG` and the
`config.GITHUB_REPOS` entries for the three special prefixes. -/
structure BotConfig where
  org : String
  repoMain : String
  repoWeb : String
  repoBot : String
deriving DecidableEq, Repr

/-- An `(owner, repo, number)` entity signature yielded by the resolver. -/
structure Sig where
  owner : String
  repo : String
  number : Nat
deriving DecidableEq, Repr

/-- Platform side effects performed by the resolver itself. -/
inductive Effect where
  /-- `await message.edit(suppress=True)`: suppress the message's own link
  preview. -/
  | suppressEmbeds
deriving DecidableEq, Repr

/-- `owner.rstrip("/")`: drop every trailing `'/'`. -/
def rstripSlashes (s : String) : String :=
  ⟨(s.data.reverse.dropWhile (· = '/')).reverse⟩

/-- Processing of one regex match by `resolve_repo_signatures`:
(signatures yielded, platform effects performed, whether the match counts
towards `valid_signatures`).

`lookup` stands for `await owner_cache.get(repo)`; `.error ()` is a
resolution failure, i.e. exactly the `RequestFailed` (remote error) or
`RuntimeError` (no exact-name result, from `StopIteration` in
`find_repo_owner`) that the source's `with suppress(...)` swallows.

Control flow from the source: a match whose site-prefix presence agrees
with `sep == "#"` is skipped before anything else; then `message.edit
(suppress=True)` runs for any site-prefixed match, before the owner/repo
dispatch; a `continue` arm does not increment `valid_signatures`, while
the suppressed-failure arm falls through and does. -/
def stepMatch (cfg : BotConfig) (lookup : String → Except Unit String)
    (m : RawMatch) : List Sig × List Effect × Bool :=
  if m.site.isSome = (m.sep = "#") then ([], [], false)
  else
    let effects : List Effect :=
      if m.site.isSome then [.suppressEmbeds] else []
    match m.owner, m.repo with
    | none, none =>
      if m.number < 10 ∧ m.site = none then ([], effects, false)
      else ([⟨cfg.org, cfg.repoMain, m.number⟩], effects, true)
    | none, some "main" => ([⟨cfg.org, cfg.repoMain, m.number⟩], effects, true)
    | none, some "web" => ([⟨cfg.org, cfg.repoWeb, m.number⟩], effects, true)
    | none, some "bot" => ([⟨cfg.org, cfg.repoBot, m.number⟩], effects, true)
    | none, some "bobr" => ([⟨cfg.org, cfg.repoBot, m.number⟩], effects, true)
    | none, some repo =>
      match lookup repo with
      | .ok owner => ([⟨owner, repo, m.number⟩], effects, true)
      | .error _ => ([], effects, true)
    | some _, none => ([], effects, false)
    | some owner, some repo =>
      ([⟨rstripSlashes owner, repo, m.number⟩], effects, true)

/-- The resolver's loop with its running `valid_signatures` counter: after
a counted match the loop breaks once the counter reaches 10. -/
def resolveGo (cfg : BotConfig) (lookup : String → Except Unit String) :
    Nat → List RawMatch → List Sig × List Effect
  | _, [] => ([], [])
  | validCount, m :: rest =>
    let (ys, effs, valid) := stepMatch cfg lookup m
    if valid then
      if validCount + 1 = 10 then (ys, effs)
      else
        let (ys2, effs2) := resolveGo cfg lookup (validCount + 1) rest
        (ys ++ ys2, effs ++ effs2)
    else
      let (ys2, effs2) := resolveGo cfg lookup validCount rest
      (ys ++ ys2, effs ++ effs2)

/-- `resolve_repo_signatures`, embedded at the match level: its input is
the list of `ENTITY_REGEX` matches in left-to-right text order, its output
the signatures yielded and the platform effects performed. -/
def resolveRepoSignatures (cfg : BotConfig)
    (lookup : String → Except Unit String) (ms : List RawMatch) :
    List Sig × List Effect :=
  resolveGo cfg lookup 0 ms

/-- The resolver without the 10-signature cap, used to phrase "the capped
resolver processes a prefix of the matches". -/
def resolveAll (cfg : BotConfig) (lookup : String → Except Unit String) :
    List RawMatch → List Sig × List Effect
  | [] => ([], [])
  | m :: rest =>
    let (ys, effs, _) := stepMatch cfg lookup m
    let (ys2, effs2) := resolveAll cfg lookup rest
    (ys ++ ys2, effs ++ effs2)

/-- Number of matches in `ms` that count towards `valid_signatures`. -/
def numValid (cfg : BotConfig) (lookup : String → Except Unit String)
    (ms : List RawMatch) : Nat :=
  (ms.filter fun m => (stepMatch cfg lookup m).2.2).length

/-- Modelled from the spec: the `TTRCache` class
(app/components/entity_mentions/cache.py) is not among the provided
sources — only its subclass `OwnerCache` is — so its single-flight fetch
behavior is modelled from §4.1 of the spec: "If `key` has a non-expired
entry, return its value immediately"; "If `key` is missing or expired,
perform exactly one fetch for that key regardless of how many concurrent
callers requested it; all concurrent callers await the same outcome."

The model restricts attention to one key.  Where a caller's value comes
from: straight `fromCache` on a fresh hit, or `fromFetch` — awaiting the
key's single in-flight fetch — otherwise. -/
inductive CallerSource where
  | fromCache (v : Nat)
  | fromFetch
deriving DecidableEq, Repr

/-- Modelled from the spec: the cache's state for one key.  `entry` is the
`CacheEntry` (value, expires-at), `inflight` whether a fetch for the key is
running, `fetchCount` how many fetches have been started, and `callers`
the source of each caller's outcome, in arrival order. -/
structure CacheKeyState where
  entry : Option (Nat × Int)
  inflight : Bool
  fetchCount : Nat
  callers : List CallerSource
deriving DecidableEq, Repr

/-- Modelled from the spec: the state before any `get`, for a key that is
either missing or holds an expired entry. -/
def CacheKeyState.coldOrExpired (now : Int) (s : CacheKeyState) : Prop :=
  (∀ v exp, s.entry = some (v, exp) → exp ≤ now) ∧
  s.inflight = false ∧ s.fetchCount = 0 ∧ s.callers = []

/-- Modelled from the spec: the synchronous prefix of one `get(key)` call —
everything up to its first suspension point, which cooperative scheduling
makes atomic.  A fresh entry is returned immediately with no I/O; a
missing or expired entry makes the caller await the key's in-flight fetch,
starting that fetch first if none is running yet. -/
def cacheEnter (now : Int) (s : CacheKeyState) : CacheKeyState :=
  match s.entry with
  | some (v, exp) =>
    if now < exp then { s with callers := s.callers ++ [.fromCache v] }
    else if s.inflight then { s with callers := s.callers ++ [.fromFetch] }
    else
      { s with
        inflight := true
        fetchCount := s.fetchCount + 1
        callers := s.callers ++ [.fromFetch] }
  | none =>
    if s.inflight then { s with callers := s.callers ++ [.fromFetch] }
    else
      { s with
        inflight := true
        fetchCount := s.fetchCount + 1
        callers := s.callers ++ [.fromFetch] }

/-- Modelled from the spec: the outcome each caller ends up with once the
in-flight fetch (if any) resolves with `o` — a cached value for fresh
hits, and `o` itself, success or failure alike, for every caller that was
awaiting the fetch. -/
def callerOutcomes (s : CacheKeyState) (o : Except Unit Nat) :
    List (Except Unit Nat) :=
  s.callers.map fun c =>
    match c with
    | .fromCache v => .ok v
    | .fromFetch => o

/-! Concrete fixtures used by witnesses and counterexamples. -/

/-- A user message whose text is `"a"`, created at time 0. -/
def beforeMsg : Msg := ⟨1, "a", false, 0, none⟩

/-- The same message after an edit changed its text to `"b"`. -/
def afterMsg : Msg := ⟨1, "b", false, 0, none⟩

/-- The bot reply linked to `beforeMsg`, created at time 0, never edited. -/
def replyMsg : Msg := ⟨2, "r", true, 0, none⟩

/-- A second bot reply, for delete-hook scenarios. -/
def replyMsg2 : Msg := ⟨3, "r2", true, 0, none⟩

/-- A processor for which the edit `"a"` → `"b"` drops the item count to
0. -/
def procZero (m : Msg) : String × Int :=
  if m.content = "a" then ("old", 1) else ("", 0)

/-- A processor for which the edit `"a"` → `"b"` produces the negative
sentinel count -1 (as e.g. `snippet_message` in
app/components/github_integration/code_links.py does). -/
def procNeg (m : Msg) : String × Int :=
  if m.content = "a" then ("old", 1) else ("neg", -1)

/-- A registry tracking `beforeMsg` with the single reply `replyMsg`. -/
def linkerOne : MessageLinker := ⟨[(beforeMsg, [replyMsg])]⟩

/-- A registry tracking `beforeMsg` with two replies. -/
def linkerTwo : MessageLinker := ⟨[(beforeMsg, [replyMsg, replyMsg2])]⟩

/-- A platform in which deleting `replyMsg` raises and every other delete
succeeds. -/
def failsFirst (m : Msg) : Bool := m = replyMsg

/-- A concrete resolver configuration. -/
def cfg0 : BotConfig := ⟨"ghostty-org", "ghostty", "website", "discord-bot"⟩

/-- A concrete owner lookup: knows the repo `"uv"`, fails on everything
else. -/
def lookup0 (s : String) : Except Unit String :=
  if s = "uv" then .ok "astral-sh" else .error ()

/-- The single `ENTITY_REGEX` match in the message text `"#3"`. -/
def mHash3 : RawMatch := ⟨none, none, none, "#", 3⟩

/-- The single `ENTITY_REGEX` match in the message text `"#42"`. -/
def mHash42 : RawMatch := ⟨none, none, none, "#", 42⟩

/-- A site-prefixed match, as produced by
`"https://github.com/a/b/issues/9"`. -/
def mSite : RawMatch :=
  ⟨some "https://github.com/", some "a/", some "b", "/issues/", 9⟩

/-- A bare-repo match (`"zzz#7"`) whose owner lookup fails under
`lookup0`. -/
def mFail : RawMatch := ⟨none, none, some "zzz", "#", 7⟩

/-- A bare-repo match (`"uv#8020"`) whose owner lookup succeeds under
`lookup0`. -/
def mUv : RawMatch := ⟨none, none, some "uv", "#", 8020⟩

/-- The one-key cache state before any request: no entry, no fetch. -/
def coldKey : CacheKeyState := ⟨none, false, 0, []⟩

/-! Association-list lemmas about the registry's backing dictionary. -/

/-- The keys of the backing dictionary are pairwise distinct — true of
every registry reachable from the empty one, since insertion happens only
on missing keys. -/
abbrev KeysNodup (l : MessageLinker) : Prop :=
  (l.refs.map Prod.fst).Nodup

theorem lookupRef_eq_none_of_not_mem :
    ∀ (l : LinkMap) (m : Msg), m ∉ l.map Prod.fst → lookupRef l m = none
  | [], _, _ => rfl
  | (k, v) :: rest, m, h => by
    have hk : ¬k = m := fun e => h (by simp [e])
    have hrest : m ∉ rest.map Prod.fst := fun e => h (by simp [e])
    simp [lookupRef, hk, lookupRef_eq_none_of_not_mem rest m hrest]

theorem delRef_isSome_of_lookup :
    ∀ {l : LinkMap} {m : Msg} {v : List Msg},
      lookupRef l m = some v → ∃ r, delRef l m = some r := by
  intro l
  induction l with
  | nil => intro m v h; exact absurd h (by simp [lookupRef])
  | cons kv rest ih =>
    intro m v h
    by_cases hk : kv.1 = m
    · exact ⟨rest, by simp [delRef, hk]⟩
    · simp only [lookupRef, hk, if_false] at h
      obtain ⟨r, hr⟩ := ih h
      exact ⟨kv :: r, by simp [delRef, hk, hr]⟩

theorem lookupRef_after_delRef :
    ∀ {l : LinkMap} {m : Msg} {r : LinkMap},
      (l.map Prod.fst).Nodup → delRef l m = some r → lookupRef r m = none := by
  intro l
  induction l with
  | nil => intro m r _ h; exact absurd h (by simp [delRef])
  | cons kv rest ih =>
    obtain ⟨k, v⟩ := kv
    intro m r hnd hd
    by_cases hk : k = m
    · simp only [delRef, hk, if_true, Option.some.injEq] at hd
      subst hd
      exact lookupRef_eq_none_of_not_mem rest m
        (hk ▸ (List.nodup_cons.mp hnd).1)
    · simp only [delRef, hk, if_false] at hd
      cases hrest : delRef rest m with
      | none => rw [hrest] at hd; exact Option.noConfusion hd
      | some r' =>
        rw [hrest] at hd
        have hr : (k, v) :: r' = r := Option.some.inj hd
        subst hr
        simp [lookupRef, hk, ih (List.nodup_cons.mp hnd).2 hrest]

theorem delRef_eq_none_of_lookup_none :
    ∀ {l : LinkMap} {m : Msg}, lookupRef l m = none → delRef l m = none := by
  intro l
  induction l with
  | nil => intro m _; rfl
  | cons kv rest ih =>
    obtain ⟨k, v⟩ := kv
    intro m h
    by_cases hk : k = m
    · simp [lookupRef, hk] at h
    · simp only [lookupRef, hk, if_false] at h
      simp [delRef, hk, ih h]

theorem lookupRef_append_none :
    ∀ {l : LinkMap} (l2 : LinkMap) {m : Msg},
      lookupRef l m = none → lookupRef (l ++ l2) m = lookupRef l2 m := by
  intro l
  induction l with
  | nil => intro l2 m _; rfl
  | cons kv rest ih =>
    obtain ⟨k, v⟩ := kv
    intro l2 m h
    by_cases hk : k = m
    · simp [lookupRef, hk] at h
    · simp only [lookupRef, hk, if_false] at h
      simp [lookupRef, hk, ih l2 h]

theorem delRef_append :
    ∀ {l : LinkMap} (l2 : LinkMap) {m : Msg},
      lookupRef l m = none →
      delRef (l ++ l2) m = (delRef l2 m).map (l ++ ·) := by
  intro l
  induction l with
  | nil => intro l2 m _; simp
  | cons kv rest ih =>
    obtain ⟨k, v⟩ := kv
    intro l2 m h
    by_cases hk : k = m
    · simp [lookupRef, hk] at h
    · simp only [lookupRef, hk, if_false] at h
      simp only [List.cons_append, delRef, hk, if_false, List.append_eq]
      rw [ih l2 h]
      cases delRef l2 m with
      | none => rfl
      | some r => rfl

/-- C1, counterexample: contrary to the claim, `unlink(x)` when `x` has no
LinkSet is not a no-op — `del self._refs[original]` raises `KeyError` on
the empty registry — and `unlink(x)` twice in a row fails on the second
call even when the first succeeded. -/
theorem unlink_missing_raises :
    (MessageLinker.mk []).unlink beforeMsg = .error () ∧
    linkerOne.unlink beforeMsg = .ok (MessageLinker.mk []) ∧
    (MessageLinker.mk []).unlink beforeMsg ≠ .ok (MessageLinker.mk []) := by
  refine ⟨by decide, by decide, by decide⟩

/-- C1, amended: for every original `x`, `unlink(x)` when `x` has no
LinkSet raises `KeyError` (it is not an idempotent no-op); consequently
`unlink(x)` followed immediately by `unlink(x)` again fails on the second
call; `get(x)` after a successful `unlink(x)` still returns an empty
sequence. -/
theorem unlink_error_behavior (l : MessageLinker) (x : Msg)
    (hnd : KeysNodup l) :
    (lookupRef l.refs x = none → l.unlink x = .error ()) ∧
    ∀ l2, l.unlink x = .ok l2 →
      l2.unlink x = .error () ∧ (l2.get x).1 = [] := by
  constructor
  · intro h
    simp [MessageLinker.unlink, delRef_eq_none_of_lookup_none h]
  · intro l2 h
    cases hd : delRef l.refs x with
    | none => simp [MessageLinker.unlink, hd] at h
    | some r =>
      simp only [MessageLinker.unlink, hd, Except.ok.injEq] at h
      subst h
      have hnone : lookupRef r x = none := lookupRef_after_delRef hnd hd
      refine ⟨?_, ?_⟩
      · simp [MessageLinker.unlink, delRef_eq_none_of_lookup_none hnone]
      · simp [MessageLinker.get, hnone]

/-- C1, witness for `unlink_error_behavior`, instantiated at the
single-entry registry,  whose first `unlink` succeeds and whose second
fails. -/
theorem unlink_error_behavior_witness :
    (MessageLinker.mk []).unlink beforeMsg = .error () ∧
    ((MessageLinker.mk []).get beforeMsg).1 = [] :=
  (unlink_error_behavior linkerOne beforeMsg (by decide)).2
    (MessageLinker.mk []) (by decide)

/-- C10: `get(x)` on an untracked original returns an empty sequence but
is not read-only: the `defaultdict` inserts an empty LinkSet for `x`, so
`unlink(x)` succeeds after a `get(x)` (or a `link(x, ...)`), while
`unlink(x)` with no prior `get`/`link` raises `KeyError`. -/
theorem get_inserts_empty_linkset (l : MessageLinker) (x : Msg)
    (h : lookupRef l.refs x = none) :
    (l.get x).1 = [] ∧
    lookupRef (l.get x).2.refs x = some [] ∧
    (∃ l2, (l.get x).2.unlink x = .ok l2) ∧
    (∀ rs, ∃ l3, (l.link x rs).unlink x = .ok l3) ∧
    l.unlink x = .error () := by
  refine ⟨?_, ?_, ?_, ?_, ?_⟩
  · simp [MessageLinker.get, h]
  · simp [MessageLinker.get, h, lookupRef_append_none [(x, [])] h, lookupRef]
  · refine ⟨⟨l.refs ++ []⟩, ?_⟩
    simp only [MessageLinker.get, h]
    simp only [MessageLinker.unlink, delRef_append [(x, [])] h]
    simp [delRef]
  · intro rs
    refine ⟨⟨l.refs ++ []⟩, ?_⟩
    simp only [MessageLinker.link, h]
    simp only [MessageLinker.unlink, delRef_append [(x, rs)] h]
    simp [delRef]
  · simp [MessageLinker.unlink, delRef_eq_none_of_lookup_none h]

/-- C10, witness for `get_inserts_empty_linkset` at the empty registry. -/
theorem get_inserts_empty_linkset_witness :
    ((MessageLinker.mk []).get beforeMsg).1 = [] ∧
    lookupRef ((MessageLinker.mk []).get beforeMsg).2.refs beforeMsg
      = some [] ∧
    (∃ l2, ((MessageLinker.mk []).get beforeMsg).2.unlink beforeMsg
      = .ok l2) ∧
    (∃ l3, ((MessageLinker.mk []).link beforeMsg [replyMsg]).unlink beforeMsg
      = .ok l3) ∧
    (MessageLinker.mk []).unlink beforeMsg = .error () := by
  have h := get_inserts_empty_linkset (MessageLinker.mk []) beforeMsg
    (by decide)
  exact ⟨h.1, h.2.1, h.2.2.1, h.2.2.2.1 [replyMsg], h.2.2.2.2⟩

/-- C2, counterexample: a tracked link whose reply timestamp is 100000
seconds in the past (well beyond the 24-hour window) is *not* left
unmutated by the edit hook when the recomputed item count is 0: the
zero-count branch runs before the expiry check and deletes the reply. -/
theorem edit_hook_expired_zero_count_deletes :
    consistencyWindow < 100000 - (replyMsg.editedAt.getD replyMsg.createdAt) ∧
    editHook procZero linkerOne beforeMsg afterMsg 100000 =
      (⟨[]⟩, [.deleteReply replyMsg]) ∧
    (editHook procZero linkerOne beforeMsg afterMsg 100000).2 ≠ [] :=
  ⟨by decide, by decide, by decide⟩

/-- C2, amended: for every tracked original whose most recent reply
timestamp (edit time, or creation time if never edited) is more than the
24-hour consistency window in the past, the edit hook untracks the link
and performs no mutation of the reply — provided the recomputed item
count for the edited message is nonzero; when that count is 0 the
zero-count branch runs first and deletes the reply. -/
theorem edit_hook_expired_untracks_without_mutation
    (proc : Msg → String × Int) (l : MessageLinker)
    (before after reply : Msg) (rest : List Msg) (now : Int)
    (hc : before.content ≠ after.content)
    (hp : proc before ≠ proc after)
    (htrack : lookupRef l.refs before = some (reply :: rest))
    (hcount : (proc after).2 ≠ 0)
    (hexp : consistencyWindow < now - (reply.editedAt.getD reply.createdAt))
    (horig : l.getOriginalMessage reply = some before)
    (hnd : KeysNodup l) :
    (editHook proc l before after now).2 = [] ∧
    lookupRef (editHook proc l before after now).1.refs before = none := by
  have hget : l.get before = (reply :: rest, l) := by
    simp [MessageLinker.get, htrack]
  obtain ⟨r, hr⟩ := delRef_isSome_of_lookup htrack
  have hrun : editHook proc l before after now = (l.unlinkFromReply reply, []) := by
    simp [editHook, hget, hc, hp, hcount, MessageLinker.unlinkIfExpired, hexp]
  rw [hrun]
  refine ⟨rfl, ?_⟩
  simp only [MessageLinker.unlinkFromReply, horig, MessageLinker.unlink, hr]
  exact lookupRef_after_delRef hnd hr

/-- C2, witness for `edit_hook_expired_untracks_without_mutation`: a
tracked original whose reply is 100000 seconds old, edited so that the
item count stays 1; the hook performs no action and the original becomes
untracked. -/
theorem edit_hook_expired_untracks_without_mutation_witness :
    (editHook procNeg linkerOne beforeMsg afterMsg 100000).2 = [] ∧
    lookupRef (editHook procNeg linkerOne beforeMsg afterMsg 100000).1.refs
      beforeMsg = none :=
  edit_hook_expired_untracks_without_mutation procNeg linkerOne beforeMsg
    afterMsg replyMsg [] 100000 (by decide) (by decide) (by decide)
    (by decide) (by decide) (by decide) (by decide)

/-- C3: the claim is right and the code is wrong.  For a tracked,
non-expired original edited so that the recomputed item count is the
negative sentinel -1 (the spec's "item_count <= 0" case, used by e.g.
`snippet_message` in app/components/github_integration/code_links.py, as
the comment in app/components/zig_codeblocks.py documents: the check
"can't be `== 0`"), `edit_hook`'s falsiness guard `if not count` only
catches 0, so the hook edits the reply in place instead of unlinking and
deleting it. -/
theorem edit_hook_negative_count_edits_reply :
    (procNeg afterMsg).2 < 0 ∧
    editHook procNeg linkerOne beforeMsg afterMsg 100 =
      (linkerOne,
       [.editReply replyMsg "neg" (-1), .removeViewTimer replyMsg]) :=
  ⟨by decide, by decide⟩

/-- C4, counterexample: with two linked replies where deleting the first
raises, the delete hook attempts only the first delete — the second
sibling's delete is never attempted, contrary to the claim. -/
theorem delete_hook_failure_aborts_siblings :
    (deleteHook linkerTwo beforeMsg failsFirst).2 = ([replyMsg], false) ∧
    replyMsg2 ∉ (deleteHook linkerTwo beforeMsg failsFirst).2.1 :=
  ⟨by decide, by decide⟩

theorem attemptDeletes_all_ok (fails : Msg → Bool) :
    ∀ rs : List Msg, (∀ x ∈ rs, fails x = false) →
      attemptDeletes fails rs = (rs, true) := by
  intro rs
  induction rs with
  | nil => intro _; rfl
  | cons a tl ih =>
    intro h
    have ha : fails a = false := h a (by simp)
    simp [attemptDeletes, ha, ih fun x hx => h x (by simp [hx])]

theorem attemptDeletes_stops (fails : Msg → Bool) :
    ∀ (rs1 : List Msg) (r : Msg) (rs2 : List Msg),
      (∀ x ∈ rs1, fails x = false) → fails r = true →
      attemptDeletes fails (rs1 ++ r :: rs2) = (rs1 ++ [r], false) := by
  intro rs1
  induction rs1 with
  | nil => intro r rs2 _ hr; simp [attemptDeletes, hr]
  | cons a tl ih =>
    intro r rs2 h hr
    have ha : fails a = false := h a (by simp)
    simp [attemptDeletes, ha, ih r rs2 (fun x hx => h x (by simp [hx])) hr]

theorem deleteHook_nonbot (l : MessageLinker) (m : Msg) (fails : Msg → Bool)
    (x : Msg) (xs : List Msg) (hbot : m.authorBot = false)
    (htrack : lookupRef l.refs m = some (x :: xs)) :
    deleteHook l m fails = (l, attemptDeletes fails (x :: xs)) := by
  have hget : l.get m = (x :: xs, l) := by simp [MessageLinker.get, htrack]
  simp [deleteHook, hbot, hget]

/-- C4, amended: in the delete hook's loop over the linked replies there
is no `suppress` around `reply.delete()`, so deletes are attempted in
order only up to and including the first failing one — the failure
propagates and the remaining siblings are not attempted; when no delete
fails, every reply's delete is attempted. -/
theorem delete_hook_stops_at_first_failure (l : MessageLinker) (m : Msg)
    (fails : Msg → Bool) (rs1 : List Msg) (r : Msg) (rs2 : List Msg)
    (hbot : m.authorBot = false)
    (htrack : lookupRef l.refs m = some (rs1 ++ r :: rs2))
    (hok : ∀ x ∈ rs1, fails x = false) (hfail : fails r = true) :
    (deleteHook l m fails).2 = (rs1 ++ [r], false) ∧
    ∀ rs : List Msg, (∀ x ∈ rs, fails x = false) →
      attemptDeletes fails rs = (rs, true) := by
  refine ⟨?_, attemptDeletes_all_ok fails⟩
  cases h12 : rs1 ++ r :: rs2 with
  | nil => exact absurd h12 (by simp)
  | cons y ys =>
    rw [h12] at htrack
    rw [deleteHook_nonbot l m fails y ys hbot htrack, ← h12,
      attemptDeletes_stops fails rs1 r rs2 hok hfail]

/-- C4, witness for `delete_hook_stops_at_first_failure`: two replies, the
first delete raises, the second is never attempted; a failure-free list is
attempted in full. -/
theorem delete_hook_stops_at_first_failure_witness :
    (deleteHook linkerTwo beforeMsg failsFirst).2 = ([replyMsg], false) ∧
    attemptDeletes failsFirst [replyMsg2] = ([replyMsg2], true) := by
  have h := delete_hook_stops_at_first_failure linkerTwo beforeMsg failsFirst
    [] replyMsg [replyMsg2] (by decide) (by decide) (by decide) (by decide)
  exact ⟨h.1, h.2 [replyMsg2] (by decide)⟩

theorem stepMatch_shape (cfg : BotConfig)
    (lookup : String → Except Unit String) (m : RawMatch) :
    (stepMatch cfg lookup m).1.length ≤ 1 ∧
    ((stepMatch cfg lookup m).2.2 = false →
      (stepMatch cfg lookup m).1 = []) := by
  unfold stepMatch
  split
  · simp
  · split <;> (try split) <;> (try split) <;> simp_all

theorem stepMatch_effects_none (cfg : BotConfig)
    (lookup : String → Except Unit String) (m : RawMatch)
    (h : m.site = none) :
    (stepMatch cfg lookup m).2.1 = [] := by
  unfold stepMatch
  split
  · rfl
  · simp only [h]
    split <;> (try split) <;> (try split) <;> simp_all

theorem numValid_cons (cfg : BotConfig) (lookup : String → Except Unit String)
    (m : RawMatch) (rest : List RawMatch) :
    numValid cfg lookup (m :: rest) =
      if (stepMatch cfg lookup m).2.2 then numValid cfg lookup rest + 1
      else numValid cfg lookup rest := by
  by_cases h : (stepMatch cfg lookup m).2.2
  · simp [numValid, List.filter, h]
  · simp [numValid, List.filter, h]

theorem resolveGo_length (cfg : BotConfig)
    (lookup : String → Except Unit String) :
    ∀ (ms : List RawMatch) (c : Nat), c < 10 →
      (resolveGo cfg lookup c ms).1.length ≤ 10 - c := by
  intro ms
  induction ms with
  | nil => intro c _; simp [resolveGo]
  | cons m rest ih =>
    intro c hc
    rcases hstep : stepMatch cfg lookup m with ⟨ys, effs, valid⟩
    have hlen : ys.length ≤ 1 := by
      have := (stepMatch_shape cfg lookup m).1
      rw [hstep] at this
      exact this
    cases valid with
    | true =>
      by_cases h10 : c + 1 = 10
      · simp only [resolveGo, hstep, h10, if_true]
        omega
      · have := ih (c + 1) (by omega)
        simp only [resolveGo, hstep, h10, if_false, if_true,
          List.length_append]
        omega
    | false =>
      have hys : ys = [] := by
        have := (stepMatch_shape cfg lookup m).2
        rw [hstep] at this
        exact this rfl
      subst hys
      have := ih c hc
      simp only [resolveGo, hstep, List.nil_append, Bool.false_eq_true,
        if_false]
      exact this

theorem resolveGo_take (cfg : BotConfig)
    (lookup : String → Except Unit String) :
    ∀ (ms : List RawMatch) (c : Nat),
      ∃ k, (resolveGo cfg lookup c ms).1 =
        (resolveAll cfg lookup (ms.take k)).1 := by
  intro ms
  induction ms with
  | nil => intro c; exact ⟨0, rfl⟩
  | cons m rest ih =>
    intro c
    rcases hstep : stepMatch cfg lookup m with ⟨ys, effs, valid⟩
    cases valid with
    | true =>
      by_cases h10 : c + 1 = 10
      · refine ⟨1, ?_⟩
        simp [resolveGo, hstep, h10, resolveAll]
      · obtain ⟨k, hk⟩ := ih (c + 1)
        refine ⟨k + 1, ?_⟩
        simp [resolveGo, hstep, h10, resolveAll, hk]
    | false =>
      obtain ⟨k, hk⟩ := ih c
      refine ⟨k + 1, ?_⟩
      simp [resolveGo, hstep, resolveAll, hk]

theorem resolveGo_stable (cfg : BotConfig)
    (lookup : String → Except Unit String) :
    ∀ (ms extra : List RawMatch) (c : Nat), c < 10 →
      10 - c ≤ numValid cfg lookup ms →
      resolveGo cfg lookup c (ms ++ extra) = resolveGo cfg lookup c ms := by
  intro ms
  induction ms with
  | nil =>
    intro extra c hc hnum
    simp [numValid] at hnum
    omega
  | cons m rest ih =>
    intro extra c hc hnum
    rcases hstep : stepMatch cfg lookup m with ⟨ys, effs, valid⟩
    rw [numValid_cons, hstep] at hnum
    cases valid with
    | true =>
      simp only [if_true] at hnum
      by_cases h10 : c + 1 = 10
      · simp [resolveGo, hstep, h10]
      · have := ih extra (c + 1) (by omega) (by omega)
        simp only [List.cons_append, resolveGo, hstep, h10, if_false,
          if_true, List.append_eq, this]
    | false =>
      simp only [Bool.false_eq_true, if_false] at hnum
      have := ih extra c hc hnum
      simp only [List.cons_append, resolveGo, hstep, Bool.false_eq_true,
        if_false, List.append_eq, this]

/-- C6: for every message, the signature scan yields at most 10
signatures; the yields are those of an uncapped left-to-right scan of a
prefix of the matches (so order of appearance is preserved); and once the
scanned matches contain 10 valid ones, any further matching text is
ignored entirely. -/
theorem resolver_caps_at_ten (cfg : BotConfig)
    (lookup : String → Except Unit String) (ms extra : List RawMatch) :
    (resolveRepoSignatures cfg lookup ms).1.length ≤ 10 ∧
    (∃ k, (resolveRepoSignatures cfg lookup ms).1 =
      (resolveAll cfg lookup (ms.take k)).1) ∧
    (10 ≤ numValid cfg lookup ms →
      resolveRepoSignatures cfg lookup (ms ++ extra) =
        resolveRepoSignatures cfg lookup ms) := by
  refine ⟨?_, resolveGo_take cfg lookup ms 0, ?_⟩
  · have := resolveGo_length cfg lookup ms 0 (by omega)
    simpa [resolveRepoSignatures] using this
  · intro h
    exact resolveGo_stable cfg lookup ms extra 0 (by omega) (by omega)

/-- C6, witness for `resolver_caps_at_ten`: ten `"#42"`-style matches
exhaust the cap, so an eleventh match (`"uv#8020"`, which would resolve)
changes nothing. -/
theorem resolver_caps_at_ten_witness :
    10 ≤ numValid cfg0 lookup0 (List.replicate 10 mHash42) ∧
    resolveRepoSignatures cfg0 lookup0 (List.replicate 10 mHash42 ++ [mUv]) =
      resolveRepoSignatures cfg0 lookup0 (List.replicate 10 mHash42) :=
  ⟨by decide,
   (resolver_caps_at_ten cfg0 lookup0 (List.replicate 10 mHash42) [mUv]).2.2
     (by decide)⟩

/-- C7: a match with neither owner nor repo, a number below 10, and no
site prefix yields no signature, while such a match with any other number
yields the default organization and default main repository with that
number; concretely, the text `"#3"` yields zero signatures and `"#42"`
yields exactly one. -/
theorem resolver_noise_rejection (cfg : BotConfig)
    (lookup : String → Except Unit String) (m : RawMatch)
    (howner : m.owner = none) (hrepo : m.repo = none)
    (hsep : ¬(m.site.isSome = (m.sep = "#"))) :
    ((m.number < 10 ∧ m.site = none) → (stepMatch cfg lookup m).1 = []) ∧
    (¬(m.number < 10 ∧ m.site = none) →
      (stepMatch cfg lookup m).1 = [⟨cfg.org, cfg.repoMain, m.number⟩]) ∧
    resolveRepoSignatures cfg lookup [mHash3] = ([], []) ∧
    resolveRepoSignatures cfg lookup [mHash42] =
      ([⟨cfg.org, cfg.repoMain, 42⟩], []) := by
  refine ⟨?_, ?_, ?_, ?_⟩
  · intro h
    simp [stepMatch, hsep, howner, hrepo, h]
  · intro h
    simp [stepMatch, hsep, howner, hrepo, h]
  · rfl
  · rfl

/-- C7, witness for `resolver_noise_rejection` at the `"#42"` match. -/
theorem resolver_noise_rejection_witness :
    (stepMatch cfg0 lookup0 mHash42).1 =
      [⟨cfg0.org, cfg0.repoMain, (42 : Nat)⟩] ∧
    resolveRepoSignatures cfg0 lookup0 [mHash3] = ([], []) := by
  have h := resolver_noise_rejection cfg0 lookup0 mHash42 rfl rfl (by decide)
  exact ⟨h.2.1 (by decide), h.2.2.1⟩

/-- C8: a match with no owner and an unrecognized repo name whose owner
lookup fails yields no signature (the `with suppress(...)` swallows
exactly the `RequestFailed`/`RuntimeError` the lookup can raise), still
counts towards the valid-signature cap, and the scan continues with the
remaining matches exactly as it would have from the next counter value —
so later signatures in the same message are still yielded. -/
theorem resolver_failure_skips_and_continues (cfg : BotConfig)
    (lookup : String → Except Unit String) (m : RawMatch)
    (rest : List RawMatch) (c : Nat) (r : String)
    (howner : m.owner = none) (hrepo : m.repo = some r)
    (hr1 : r ≠ "main") (hr2 : r ≠ "web") (hr3 : r ≠ "bot") (hr4 : r ≠ "bobr")
    (hsep : ¬(m.site.isSome = (m.sep = "#")))
    (hfail : lookup r = .error ()) (hc : c + 1 ≠ 10) :
    (stepMatch cfg lookup m).1 = [] ∧
    (stepMatch cfg lookup m).2.2 = true ∧
    (resolveGo cfg lookup c (m :: rest)).1 =
      (resolveGo cfg lookup (c + 1) rest).1 := by
  have hstep : (stepMatch cfg lookup m).1 = [] ∧
      (stepMatch cfg lookup m).2.2 = true := by
    constructor <;>
      simp [stepMatch, hsep, howner, hrepo, hr1, hr2, hr3, hr4, hfail]
  refine ⟨hstep.1, hstep.2, ?_⟩
  rcases hs : stepMatch cfg lookup m with ⟨ys, effs, valid⟩
  rw [hs] at hstep
  obtain ⟨hys, hvalid⟩ := hstep
  simp only at hys hvalid
  subst hys hvalid
  simp [resolveGo, hs, hc]

/-- C8, witness for `resolver_failure_skips_and_continues`: `"zzz#7"`
fails to resolve and yields nothing, while the following `"uv#8020"` is
still yielded. -/
theorem resolver_failure_skips_and_continues_witness :
    (stepMatch cfg0 lookup0 mFail).1 = [] ∧
    (resolveGo cfg0 lookup0 0 [mFail, mUv]).1 =
      (resolveGo cfg0 lookup0 1 [mUv]).1 ∧
    (resolveRepoSignatures cfg0 lookup0 [mFail, mUv]).1 =
      [⟨"astral-sh", "uv", 8020⟩] := by
  have h := resolver_failure_skips_and_continues cfg0 lookup0 mFail [mUv] 0
    "zzz" rfl rfl (by decide) (by decide) (by decide) (by decide) (by decide)
    (by decide) (by decide)
  exact ⟨h.1, h.2.2, by decide⟩

/-- C9, counterexample: the parse does *not* leave the message unchanged —
on the site-prefixed match of `"https://github.com/a/b/issues/9"` the
scan itself performs `await message.edit(suppress=True)`. -/
theorem resolver_edits_message_on_site_match :
    (resolveRepoSignatures cfg0 lookup0 [mSite]).2 = [.suppressEmbeds] ∧
    (resolveRepoSignatures cfg0 lookup0 [mSite]).2 ≠ [] :=
  ⟨by decide, by decide⟩

theorem resolveGo_no_site_no_effects (cfg : BotConfig)
    (lookup : String → Except Unit String) :
    ∀ (ms : List RawMatch) (c : Nat), (∀ x ∈ ms, x.site = none) →
      (resolveGo cfg lookup c ms).2 = [] := by
  intro ms
  induction ms with
  | nil => intro c _; rfl
  | cons m rest ih =>
    intro c h
    have hm : (stepMatch cfg lookup m).2.1 = [] :=
      stepMatch_effects_none cfg lookup m (h m (by simp))
    have hrest : ∀ x ∈ rest, x.site = none := fun x hx => h x (by simp [hx])
    rcases hs : stepMatch cfg lookup m with ⟨ys, effs, valid⟩
    rw [hs] at hm
    simp only at hm
    subst hm
    cases valid with
    | true =>
      by_cases h10 : c + 1 = 10
      · simp [resolveGo, hs, h10]
      · simp [resolveGo, hs, h10, ih (c + 1) hrest]
    | false => simp [resolveGo, hs, ih c hrest]

/-- C9, amended: the link-preview suppression is performed by the parser
itself, not signaled back to the caller: when a match passing the
separator check is site-prefixed, `resolve_repo_signatures` awaits
`message.edit(suppress=True)` during the scan; only when no match has a
site prefix does the scan leave the message unchanged. -/
theorem resolver_site_edit_is_parsers_own (cfg : BotConfig)
    (lookup : String → Except Unit String) (m : RawMatch)
    (ms : List RawMatch) (hnone : ∀ x ∈ ms, x.site = none)
    (hsite : m.site.isSome = true)
    (hsep : ¬(m.site.isSome = (m.sep = "#"))) :
    (resolveRepoSignatures cfg lookup ms).2 = [] ∧
    (stepMatch cfg lookup m).2.1 = [Effect.suppressEmbeds] := by
  refine ⟨resolveGo_no_site_no_effects cfg lookup ms 0 hnone, ?_⟩
  unfold stepMatch
  split
  · simp_all
  · simp only [hsite]
    split <;> (try split) <;> simp_all

/-- C9, witness for `resolver_site_edit_is_parsers_own`: a scan of two
site-free matches performs no platform effect, and the site-prefixed
match `mSite` makes the parser itself suppress the preview. -/
theorem resolver_site_edit_is_parsers_own_witness :
    (resolveRepoSignatures cfg0 lookup0 [mHash42, mFail]).2 = [] ∧
    (stepMatch cfg0 lookup0 mSite).2.1 = [Effect.suppressEmbeds] :=
  resolver_site_edit_is_parsers_own cfg0 lookup0 mSite [mHash42, mFail]
    (by decide) (by decide) (by decide)

theorem cacheEnter_stale (now : Int) (s : CacheKeyState)
    (hstale : ∀ v exp, s.entry = some (v, exp) → exp ≤ now) :
    cacheEnter now s =
      if s.inflight then { s with callers := s.callers ++ [.fromFetch] }
      else { s with inflight := true, fetchCount := s.fetchCount + 1,
                    callers := s.callers ++ [.fromFetch] } := by
  unfold cacheEnter
  cases he : s.entry with
  | none => rfl
  | some ve =>
    obtain ⟨v, exp⟩ := ve
    have hlt : ¬ now < exp := by
      have := hstale v exp he
      omega
    simp [hlt]

theorem cacheEnter_iterate_waiters (now : Int) :
    ∀ (k : Nat) (s1 : CacheKeyState),
      (∀ v exp, s1.entry = some (v, exp) → exp ≤ now) →
      s1.inflight = true →
      ((cacheEnter now)^[k] s1).fetchCount = s1.fetchCount ∧
      ((cacheEnter now)^[k] s1).callers =
        s1.callers ++ List.replicate k CallerSource.fromFetch ∧
      ((cacheEnter now)^[k] s1).entry = s1.entry ∧
      ((cacheEnter now)^[k] s1).inflight = true := by
  intro k
  induction k with
  | zero => intro s1 _ hinf; simp [hinf]
  | succ k ih =>
    intro s1 hstale hinf
    obtain ⟨ihf, ihc, ihe, ihi⟩ := ih s1 hstale hinf
    rw [Function.iterate_succ_apply',
      cacheEnter_stale now _ (by rw [ihe]; exact hstale), if_pos ihi]
    refine ⟨ihf, ?_, ihe, ihi⟩
    show ((cacheEnter now)^[k] s1).callers ++ [CallerSource.fromFetch] =
      s1.callers ++ List.replicate (k + 1) CallerSource.fromFetch
    rw [ihc, List.append_assoc, ← List.replicate_succ']

/-- C5 (modelled from the spec, the `TTRCache` source being absent): when
N ≥ 1 `get` calls for the same missing-or-expired key run their atomic
check-and-register prefixes in any order (the prefixes are identical, so
every cooperative interleaving is this iteration), exactly one fetch is
started; every caller awaits that single in-flight fetch, and whatever
outcome `o` it resolves with — success or failure — all N callers receive
exactly `o`. -/
theorem cache_single_flight (now : Int) (s : CacheKeyState) (N : Nat)
    (hcold : s.coldOrExpired now) (hN : 1 ≤ N) :
    ((cacheEnter now)^[N] s).fetchCount = 1 ∧
    ((cacheEnter now)^[N] s).callers =
      List.replicate N CallerSource.fromFetch ∧
    ∀ o, callerOutcomes ((cacheEnter now)^[N] s) o = List.replicate N o := by
  obtain ⟨hstale, hinf, hcount, hcallers⟩ := hcold
  obtain ⟨k, rfl⟩ : ∃ k, N = k + 1 := ⟨N - 1, by omega⟩
  rw [Function.iterate_succ_apply]
  have hs1 : cacheEnter now s =
      { s with inflight := true, fetchCount := s.fetchCount + 1,
               callers := s.callers ++ [.fromFetch] } := by
    rw [cacheEnter_stale now s hstale, hinf]
    simp
  have hfc : (cacheEnter now s).fetchCount = 1 := by rw [hs1]; simp [hcount]
  have hcc : (cacheEnter now s).callers = [CallerSource.fromFetch] := by
    rw [hs1]; simp [hcallers]
  have hec : (cacheEnter now s).entry = s.entry := by rw [hs1]
  obtain ⟨hf, hc, he, hi⟩ := cacheEnter_iterate_waiters now k
    (cacheEnter now s) (by rw [hec]; exact hstale) (by rw [hs1])
  refine ⟨?_, ?_, ?_⟩
  · rw [hf, hfc]
  · rw [hc, hcc, List.replicate_succ]
    rfl
  · intro o
    unfold callerOutcomes
    rw [hc, hcc]
    simp [List.replicate_succ, List.map_replicate]

/-- C5, witness for `cache_single_flight`: three concurrent requesters of
a cold key trigger one fetch and all three share its (here failing)
outcome. -/
theorem cache_single_flight_witness :
    ((cacheEnter 5)^[3] coldKey).fetchCount = 1 ∧
    ((cacheEnter 5)^[3] coldKey).callers =
      List.replicate 3 CallerSource.fromFetch ∧
    callerOutcomes ((cacheEnter 5)^[3] coldKey) (.error ()) =
      List.replicate 3 (.error ()) := by
  have h := cache_single_flight 5 coldKey 3
    (by refine ⟨?_, rfl, rfl, rfl⟩; intro v exp hv; simp [coldKey] at hv)
    (by omega)
  exact ⟨h.1, h.2.1, h.2.2 (.error ())⟩

end GhosttyBot
